import Mathlib

/-!
Verification development for the logo-extraction heuristic of `getlogo.py`
(`get_site_logo` and its helpers).  The parsed HTML page is modelled as a
tree of nodes mirroring what BeautifulSoup queries observe; candidate
discovery, scoring, ranking, the resolution loop, image normalization and
filename generation are translated from the source.  External effects
(HTTP fetches, URL joining, domain parsing, the random hex suffix) are
parameters of the model.
-/

namespace GetLogo

/-! ### String helpers (Python `str.lower`, substring `in`, `' '.join`) -/

/-- `leadsWith n h` : the list `n` is an initial segment of `h`. -/
def leadsWith : List Char → List Char → Bool
  | [], _ => true
  | _ :: _, [] => false
  | c :: cs, d :: ds => c == d && leadsWith cs ds

/-- `hasSub n h` : `n` occurs contiguously inside `h` (Python `n in h`). -/
def hasSub (needle : List Char) : List Char → Bool
  | [] => needle.isEmpty
  | c :: rest => leadsWith needle (c :: rest) || hasSub needle rest

/-- Lower-case a character list (Python `str.lower`, ASCII fragment). -/
def lowerL (l : List Char) : List Char := l.map Char.toLower

/-- Lower-case a string. -/
def lowerS (s : String) : String := String.mk (lowerL s.data)

/-- Python `'logo' in value.lower()`. -/
def containsLogo (s : String) : Bool := hasSub "logo".data (lowerL s.data)

/-- Python truthiness of `tag.get(attr)`: `None` and `''` are falsy. -/
def truthy (o : Option String) : Bool := o.getD "" != ""

/-- Python `' '.join(l)`. -/
def joinSpace : List String → String
  | [] => ""
  | [s] => s
  | s :: rest => s ++ " " ++ joinSpace rest

/-! ### The parsed page (BeautifulSoup document tree) -/

/-- An `<img>` element: the four attributes inspected by the scorer.
`class` is multi-valued in BeautifulSoup (a list of tokens), the others
are plain strings; `none` means the attribute is absent. -/
structure Img where
  cls : Option (List String)
  idv : Option String
  alt : Option String
  src : Option String
deriving DecidableEq

/-- A `<link>` element: its (multi-valued) `rel` attribute — absent is
the empty list, matching `link.get('rel', [])` — and its `href`. -/
structure LinkE where
  rel : List String
  href : Option String
deriving DecidableEq

/-- A node of the parsed document.  `link` and `img` are void elements;
`header` is a `<header>` element with children; `other` is any other
container element. -/
inductive Node where
  | link : LinkE → Node
  | img : Img → Node
  | header : List Node → Node
  | other : List Node → Node

/-- A parsed page: the document's top-level nodes. -/
abbrev Page := List Node

mutual

/-- All `<link>` elements of a subtree in document (pre-order) order
(`soup.find_all('link')`). -/
def nodeLinks : Node → List LinkE
  | .link l => [l]
  | .img _ => []
  | .header cs => listLinks cs
  | .other cs => listLinks cs

def listLinks : List Node → List LinkE
  | [] => []
  | n :: ns => nodeLinks n ++ listLinks ns

end

mutual

/-- All `<img>` elements of a subtree in document (pre-order) order
(`soup.find_all('img')`). -/
def nodeImgs : Node → List Img
  | .link _ => []
  | .img i => [i]
  | .header cs => listImgs cs
  | .other cs => listImgs cs

def listImgs : List Node → List Img
  | [] => []
  | n :: ns => nodeImgs n ++ listImgs ns

end

mutual

/-- The first `<header>` element in pre-order (`soup.find('header')`),
returned as its list of children. -/
def nodeHeader : Node → Option (List Node)
  | .link _ => none
  | .img _ => none
  | .header cs => some cs
  | .other cs => listHeader cs

def listHeader : List Node → Option (List Node)
  | [] => none
  | n :: ns =>
    match nodeHeader n with
    | some h => some h
    | none => listHeader ns

end

mutual

/-- The first `<img>` element in a subtree, pre-order (`tag.find('img')`). -/
def nodeFirstImg : Node → Option Img
  | .link _ => none
  | .img i => some i
  | .header cs => listFirstImg cs
  | .other cs => listFirstImg cs

def listFirstImg : List Node → Option Img
  | [] => none
  | n :: ns =>
    match nodeFirstImg n with
    | some i => some i
    | none => listFirstImg ns

end

/-! ### Candidate discovery (source lines 35-70) -/

/-- A logo candidate: `(reference, priority)`. -/
abbrev Cand := String × Nat

/-- `rel = ' '.join(link.get('rel', [])).lower()`. -/
def relStr (l : LinkE) : String := lowerS (joinSpace l.rel)

/-- Step 1 test for one `<link>`:
`('icon' in rel or 'logo' in rel) and link.get('href')` emits
`(link.get('href'), 1)`. -/
def emitLink (l : LinkE) : Option Cand :=
  if (hasSub "icon".data (relStr l).data || hasSub "logo".data (relStr l).data)
      && truthy l.href then
    some (l.href.getD "", 1)
  else
    none

/-- The attribute values inspected by the image scorer, in the source's
order `['class', 'id', 'alt', 'src']`; a multi-valued `class` is joined
with spaces, an absent attribute reads as `''` (`img.get(attr, '')`). -/
def classVal (i : Img) : String :=
  match i.cls with
  | some l => joinSpace l
  | none => ""

def idVal (i : Img) : String := i.idv.getD ""

def altVal (i : Img) : String := i.alt.getD ""

def srcVal (i : Img) : String := i.src.getD ""

def attrVals (i : Img) : List String := [classVal i, idVal i, altVal i, srcVal i]

/-- Step 2 scoring loop: start at 0, add 2 for each of the four
attributes whose value contains `"logo"` case-insensitively. -/
def imgScore (i : Img) : Nat :=
  (attrVals i).foldl (fun s v => if containsLogo v then s + 2 else s) 0

/-- Step 2 emission for one `<img>`:
`if score > 0 and img.get('src')` emits `(img.get('src'), score + 2)`. -/
def emitImg (i : Img) : Option Cand :=
  if 0 < imgScore i ∧ truthy i.src = true then
    some (srcVal i, imgScore i + 2)
  else
    none

/-- Step 1: candidates from `<link>` elements, in discovery order. -/
def linkCands (page : Page) : List Cand := (listLinks page).filterMap emitLink

/-- Step 2: candidates from `<img>` elements, in discovery order. -/
def imgCands (page : Page) : List Cand := (listImgs page).filterMap emitImg

/-- Step 3 fallback: the first image inside the first `<header>`, with
priority 3, provided it has a truthy `src`. -/
def headerCand (page : Page) : List Cand :=
  match listHeader page with
  | none => []
  | some cs =>
    match listFirstImg cs with
    | none => []
    | some i => if truthy i.src then [(srcVal i, 3)] else []

/-- The full candidate list before ranking: steps 1 and 2 appended in
that order; only when they produced nothing, the step 3 fallback. -/
def allCands (page : Page) : List Cand :=
  if linkCands page ++ imgCands page = [] then headerCand page
  else linkCands page ++ imgCands page

/-! ### Ranking (source lines 72-73): stable sort by priority descending,
modelling `logo_candidates.sort(key=lambda x: x[1], reverse=True)`. -/

/-- Insert a candidate after every earlier candidate of strictly higher
priority and before the first of equal or lower priority. -/
def insertC (c : Cand) : List Cand → List Cand
  | [] => [c]
  | d :: ds => if c.2 < d.2 then d :: insertC c ds else c :: d :: ds

/-- Stable descending insertion sort on priorities. -/
def sortCands : List Cand → List Cand
  | [] => []
  | c :: rest => insertC c (sortCands rest)

/-- The ranked candidate list the resolution loop walks. -/
def ranked (page : Page) : List Cand := sortCands (allCands page)

/-! ### Images and normalization (source lines 86-100) -/

/-- A pixel with red, green, blue and alpha components. -/
structure RGBA where
  r : Nat
  g : Nat
  b : Nat
  a : Nat
deriving DecidableEq

/-- A decoded PIL image: `img.format` (possibly `None`), `img.mode`,
and its pixel data. -/
structure PILImage where
  format : Option String
  mode : String
  px : List RGBA
deriving DecidableEq

/-- `save_format = img.format if img.format in ('JPEG', 'PNG') else 'PNG'`. -/
def saveFormat (im : PILImage) : String :=
  match im.format with
  | some f => if f == "JPEG" || f == "PNG" then f else "PNG"
  | none => "PNG"

/-- Alpha blend of one channel over a white background, modelling PIL's
`background.paste(img, mask=alpha)` onto an all-white RGB image:
component `c` at alpha `a` yields `(c*a + 255*(255-a)) / 255`. -/
def blendWhite (c a : Nat) : Nat := (c * a + 255 * (255 - a)) / 255

/-- One pixel of the flattened image: each colour channel blended over
white by the pixel's alpha; the result is fully opaque. -/
def pasteWhitePx (p : RGBA) : RGBA :=
  ⟨blendWhite p.r p.a, blendWhite p.g p.a, blendWhite p.b p.a, 255⟩

/-- The conversion block before saving: an RGBA image headed for JPEG is
composited onto a white background (mode becomes RGB); any other
non-RGB image headed for JPEG is converted to RGB (`img.convert('RGB')`,
whose per-mode pixel translation is outside this model); otherwise the
image is left untouched. -/
def normalizeImage (im : PILImage) : PILImage :=
  let sf := saveFormat im
  if im.mode == "RGBA" && sf == "JPEG" then
    ⟨im.format, "RGB", im.px.map pasteWhitePx⟩
  else if im.mode != "RGB" && sf == "JPEG" then
    ⟨im.format, "RGB", im.px⟩
  else
    im

/-! ### The extractor (source lines 14-129) -/

/-- The HTTP response for the page fetch: `requests.get` returns a
response carrying a status code and a body; the source parses the body
without consulting the status. -/
structure Response where
  status : Nat
  page : Page

/-- The external effects `get_site_logo` depends on: fetching and
parsing the page (an exception is `Except.error`), fetching and decoding
a candidate image (`none` is any network/timeout/HTTP-status/decode
failure), `urllib.parse.urljoin`, `urlparse(url).netloc`, and the
`uuid4().hex[:8]` suffix drawn for this call. -/
structure Env where
  fetchPage : String → Except String Response
  fetchImage : String → Option PILImage
  urljoin : String → String → String
  netloc : String → String
  suffix : String

/-- The dictionary returned on success (source lines 114-120). -/
structure LogoRecord where
  path : String
  filename : String
  fmt : String
  domain : String
  url : String
deriving DecidableEq

/-- The observable outcome of one `get_site_logo` call: its return
value, the files it wrote, and the error messages it reported. -/
structure ExtractOutcome where
  record : Option LogoRecord
  written : List (String × PILImage)
  errors : List String
deriving DecidableEq

/-- Source lines 20-21: prefix `https://` unless the URL already starts
with `http://` or `https://`. -/
def normalizeUrl (u : String) : String :=
  if leadsWith "http://".data u.data || leadsWith "https://".data u.data then u
  else "https://" ++ u

/-- The operator-visible message of the outer exception handler
(source line 128). -/
def errMsg (u e : String) : String := "Error processing " ++ u ++ ": " ++ e

/-- The resolution loop (source lines 76-123): walk the ranked
candidates; resolve each reference against the page URL; the first that
fetches and decodes is used; every failure silently skips. -/
def resolveCands (env : Env) (base : String) : List Cand → Option (String × PILImage)
  | [] => none
  | (ref, _) :: rest =>
    match env.fetchImage (env.urljoin base ref) with
    | some im => some (env.urljoin base ref, im)
    | none => resolveCands env base rest

/-- Source line 104:
`f"{domain.replace('.', '_')}_{uuid.uuid4().hex[:8]}.{ext}"`. -/
def mkFilename (domain sfx ext : String) : String :=
  String.mk (domain.data.map fun c => if c == '.' then '_' else c)
    ++ "_" ++ sfx ++ "." ++ ext

/-- `get_site_logo`, with its effects supplied by `env`. -/
def getSiteLogo (env : Env) (url0 : String) : ExtractOutcome :=
  let url := normalizeUrl url0
  match env.fetchPage url with
  | .error e => ⟨none, [], [errMsg url e]⟩
  | .ok resp =>
    match resolveCands env url (ranked resp.page) with
    | none => ⟨none, [], []⟩
    | some (_, im) =>
      let sf := saveFormat im
      let ext := if sf == "JPEG" then "jpg" else "png"
      let domain := env.netloc url
      let filename := mkFilename domain env.suffix ext
      let path := "logos/" ++ filename
      ⟨some ⟨path, filename, ext, domain, url⟩, [(path, normalizeImage im)], []⟩

/-- The orchestrator's per-URL loop: every URL is processed with
`get_site_logo`, independently of the others' outcomes. -/
def runBatch (env : Env) (urls : List String) : List ExtractOutcome :=
  urls.map (getSiteLogo env)

/-! ### Concrete pages, images and environments used to instantiate the
theorems below. -/

/-- An image whose `alt` contains "logo" and whose `src` does not. -/
def c1wImg : Img := ⟨none, none, some "Site Logo", some "brand.png"⟩

/-- A page with one icon link and one alt-"logo" image. -/
def c1wPage : Page :=
  [Node.link ⟨["icon"], some "favicon.ico"⟩, Node.img c1wImg]

/-- A class-"logo" image discovered before an alt-"logo" image. -/
def c1cexImg1 : Img := ⟨some ["logo"], none, none, some "a.png"⟩

/-- The alt-"logo" image discovered second. -/
def c1cexImg2 : Img := ⟨none, none, some "logo", some "b.png"⟩

/-- Page on which the first alt-matching image ties with an earlier
class-matching image. -/
def c1cexPage : Page := [Node.img c1cexImg1, Node.img c1cexImg2]

/-- An image with a matching class but an empty `src` attribute. -/
def c2cexImg : Img := ⟨some ["logo"], none, none, some ""⟩

/-- An `<img>` with no attributes at all. -/
def c4cexImg : Img := ⟨none, none, none, none⟩

/-- A page whose header's first image has no `src`. -/
def c4cexPage : Page := [Node.header [Node.img c4cexImg]]

/-- A header-fallback image with a usable `src`. -/
def c4wImg : Img := ⟨none, none, none, some "hero.png"⟩

/-- A page with no step-1/2 candidates and a nested header image. -/
def c4wPage : Page :=
  [Node.other [Node.header [Node.other [Node.img c4wImg]]]]

/-- An environment whose page fetch always raises (network timeout). -/
def c5wEnv : Env :=
  ⟨fun _ => .error "timeout", fun _ => none, fun _ r => r, fun _ => "", "00000000"⟩

/-- A page carrying one class-"logo" image. -/
def c5cexPage : Page := [Node.img ⟨some ["logo"], none, none, some "l.png"⟩]

/-- A decoded PNG image. -/
def c5cexImg : PILImage := ⟨some "PNG", "RGB", []⟩

/-- An environment whose page fetch returns HTTP status 404 with a
parseable body, and whose image fetches succeed. -/
def c5cexEnv : Env :=
  ⟨fun _ => .ok ⟨404, c5cexPage⟩, fun _ => some c5cexImg,
   fun _ r => r, fun _ => "example.com", "abcd1234"⟩

/-- An environment that returns an empty page. -/
def c6wEnv : Env :=
  ⟨fun _ => .ok ⟨200, []⟩, fun _ => none, fun _ r => r,
   fun _ => "example.com", "00000000"⟩

/-- A transparent JPEG-sourced image: one opaque and one fully
transparent pixel. -/
def c8wImg : PILImage :=
  ⟨some "JPEG", "RGBA", [⟨10, 20, 30, 255⟩, ⟨1, 2, 3, 0⟩]⟩

/-- First extraction drawing the suffix "deadbeef": the page offers
`a.png`, which decodes to a black pixel. -/
def c9envA : Env :=
  ⟨fun _ => .ok ⟨200, [Node.img ⟨some ["logo"], none, none, some "a.png"⟩]⟩,
   fun _ => some ⟨some "PNG", "RGB", [⟨0, 0, 0, 255⟩]⟩,
   fun _ r => r, fun _ => "example.com", "deadbeef"⟩

/-- Second extraction on the same domain, also drawing "deadbeef": the
page offers `b.png`, which decodes to a white pixel. -/
def c9envB : Env :=
  ⟨fun _ => .ok ⟨200, [Node.img ⟨some ["logo"], none, none, some "b.png"⟩]⟩,
   fun _ => some ⟨some "PNG", "RGB", [⟨255, 255, 255, 255⟩]⟩,
   fun _ r => r, fun _ => "example.com", "deadbeef"⟩

/-! ### Scoring lemmas -/

theorem score_foldl (l : List String) (s : Nat) :
    l.foldl (fun s v => if containsLogo v then s + 2 else s) s
      = s + 2 * l.countP (fun v => containsLogo v) := by
  induction l generalizing s with
  | nil => simp
  | cons v t ih =>
    simp only [List.foldl_cons, List.countP_cons, ih]
    cases h : containsLogo v
    · simp [h]
    · simp [h]
      omega

/-- The accumulated score is twice the number of the four inspected
attributes whose value contains `"logo"`. -/
theorem imgScore_eq (i : Img) :
    imgScore i = 2 * (attrVals i).countP (fun v => containsLogo v) := by
  simpa using score_foldl (attrVals i) 0

theorem imgScore_even (i : Img) : imgScore i % 2 = 0 := by
  rw [imgScore_eq]; omega

theorem imgScore_pos_of_alt (i : Img) (h : containsLogo (altVal i) = true) :
    2 ≤ imgScore i := by
  rw [imgScore_eq]
  have : 0 < (attrVals i).countP (fun v => containsLogo v) :=
    List.countP_pos_iff.mpr ⟨altVal i, by simp [attrVals], h⟩
  omega

/-! ### Candidate-shape lemmas -/

theorem emitLink_priority {l : LinkE} {c : Cand} (h : emitLink l = some c) :
    c.2 = 1 := by
  unfold emitLink at h
  split at h
  · cases h; rfl
  · cases h

theorem linkCands_priority {page : Page} {c : Cand} (h : c ∈ linkCands page) :
    c.2 = 1 := by
  obtain ⟨l, -, hl⟩ := List.mem_filterMap.mp h
  exact emitLink_priority hl

theorem emitImg_eq_some {i : Img} {c : Cand} (h : emitImg i = some c) :
    c = (srcVal i, imgScore i + 2) ∧ 0 < imgScore i ∧ truthy i.src = true := by
  unfold emitImg at h
  split at h
  next hc => cases h; exact ⟨rfl, hc⟩
  next => cases h

theorem imgCands_priority {page : Page} {c : Cand} (h : c ∈ imgCands page) :
    4 ≤ c.2 ∧ c.2 % 2 = 0 := by
  obtain ⟨i, -, hi⟩ := List.mem_filterMap.mp h
  obtain ⟨hc, hpos, -⟩ := emitImg_eq_some hi
  have heven := imgScore_even i
  have h2 : c.2 = imgScore i + 2 := by rw [hc]
  omega

theorem headerCand_shape (page : Page) :
    headerCand page = [] ∨ ∃ s, headerCand page = [(s, 3)] := by
  rcases hh : listHeader page with _ | cs
  · exact Or.inl (by simp [headerCand, hh])
  · rcases hf : listFirstImg cs with _ | i
    · exact Or.inl (by simp [headerCand, hh, hf])
    · by_cases hs : truthy i.src = true
      · exact Or.inr ⟨srcVal i, by simp [headerCand, hh, hf, hs]⟩
      · exact Or.inl (by simp [headerCand, hh, hf, hs])

/-! ### Stable-sort lemmas -/

theorem insertC_perm (c : Cand) (l : List Cand) :
    List.Perm (insertC c l) (c :: l) := by
  induction l with
  | nil => rfl
  | cons d ds ih =>
    unfold insertC
    by_cases h : c.2 < d.2
    · simp only [h, if_true]
      exact (ih.cons d).trans (List.Perm.swap c d ds)
    · simp [h]

theorem sortCands_perm (l : List Cand) : List.Perm (sortCands l) l := by
  induction l with
  | nil => rfl
  | cons c rest ih => exact (insertC_perm c (sortCands rest)).trans (ih.cons c)

theorem mem_insertC {y c : Cand} {l : List Cand} :
    y ∈ insertC c l ↔ y = c ∨ y ∈ l := by
  constructor
  · intro h
    simpa using (insertC_perm c l).subset h
  · intro h
    exact (insertC_perm c l).symm.subset (by simpa using h)

theorem insertC_sorted {c : Cand} {l : List Cand}
    (h : List.Pairwise (fun a b : Cand => b.2 ≤ a.2) l) :
    List.Pairwise (fun a b : Cand => b.2 ≤ a.2) (insertC c l) := by
  induction l with
  | nil => simp [insertC]
  | cons d ds ih =>
    obtain ⟨hd, hds⟩ := List.pairwise_cons.mp h
    unfold insertC
    by_cases hcd : c.2 < d.2
    · simp only [hcd, if_true]
      refine List.pairwise_cons.mpr ⟨fun y hy => ?_, ih hds⟩
      rcases mem_insertC.mp hy with rfl | hy'
      · omega
      · exact hd y hy'
    · simp only [hcd, if_false]
      refine List.pairwise_cons.mpr ⟨fun y hy => ?_, List.pairwise_cons.mpr ⟨hd, hds⟩⟩
      rcases List.mem_cons.mp hy with rfl | hy'
      · omega
      · have := hd y hy'
        omega

theorem sortCands_sorted (l : List Cand) :
    List.Pairwise (fun a b : Cand => b.2 ≤ a.2) (sortCands l) := by
  induction l with
  | nil => simp [sortCands]
  | cons c rest ih => exact insertC_sorted ih

theorem filter_insertC (c : Cand) (l : List Cand) (p : Nat) :
    (insertC c l).filter (fun x : Cand => x.2 == p)
      = if c.2 = p then c :: l.filter (fun x : Cand => x.2 == p)
        else l.filter (fun x : Cand => x.2 == p) := by
  induction l with
  | nil =>
    by_cases hcp : c.2 = p
    · simp [insertC, List.filter_cons, hcp]
    · simp [insertC, List.filter_cons, hcp]
  | cons d ds ih =>
    by_cases hcd : c.2 < d.2
    · have hstep : insertC c (d :: ds) = d :: insertC c ds := by
        simp [insertC, hcd]
      simp only [hstep, List.filter_cons]
      by_cases hdp : d.2 = p
      · have hcp : c.2 ≠ p := by omega
        simp [hdp, hcp, ih]
      · by_cases hcp : c.2 = p
        · simp [hdp, hcp, ih]
        · simp [hdp, hcp, ih]
    · have hstep : insertC c (d :: ds) = c :: d :: ds := by
        simp [insertC, hcd]
      simp only [hstep, List.filter_cons]
      by_cases hcp : c.2 = p
      · simp [hcp]
      · simp [hcp]

/-- Stability: sorting preserves, for every priority value, the
subsequence of candidates carrying that priority. -/
theorem filter_sortCands (l : List Cand) (p : Nat) :
    (sortCands l).filter (fun x : Cand => x.2 == p)
      = l.filter (fun x : Cand => x.2 == p) := by
  induction l with
  | nil => rfl
  | cons c rest ih =>
    simp only [sortCands, filter_insertC, ih, List.filter_cons]
    by_cases hcp : c.2 = p
    · simp [hcp]
    · simp [hcp]

/-- When one candidate strictly outranks every other, it is the head of
the sorted list. -/
theorem sortCands_head {l : List Cand} {x : Cand} (hx : x ∈ l)
    (hmax : ∀ c ∈ l, c ≠ x → c.2 < x.2) :
    (sortCands l).head? = some x := by
  have hperm := sortCands_perm l
  have hxs : x ∈ sortCands l := hperm.symm.subset hx
  rcases hs : sortCands l with _ | ⟨h, t⟩
  · rw [hs] at hxs
    simp at hxs
  · have hsorted := sortCands_sorted l
    rw [hs] at hsorted hxs
    have hh : h ∈ l := hperm.subset (hs ▸ List.mem_cons_self h t)
    rcases List.mem_cons.mp hxs with rfl | hxt
    · rfl
    · have hxle : x.2 ≤ h.2 := (List.pairwise_cons.mp hsorted).1 x hxt
      by_cases heq : h = x
      · simp [heq]
      · have := hmax h hh heq
        omega

/-! ### Resolution-loop lemmas -/

theorem resolveCands_none {env : Env} {base : String} {cands : List Cand}
    (h : ∀ c ∈ cands, env.fetchImage (env.urljoin base c.1) = none) :
    resolveCands env base cands = none := by
  induction cands with
  | nil => rfl
  | cons c rest ih =>
    unfold resolveCands
    rcases c with ⟨ref, pr⟩
    rw [h (ref, pr) (List.mem_cons_self _ _)]
    exact ih fun d hd => h d (List.mem_cons_of_mem _ hd)

/-! ### The claims -/

/-- C1 (amended): on any parsed page, an image element whose `alt`
contains "logo" case-insensitively and whose `src` is present and
nonempty yields the candidate `(src, score + 2)`; if every other
discovered candidate has strictly lower priority, that candidate is the
head of the ranked list — the one the resolution loop tries first — its
priority is at least 4, and it outranks every icon/logo link candidate,
all of which have priority 1. -/
theorem claim_C1 (page : Page) (i : Img)
    (hmem : i ∈ listImgs page)
    (halt : containsLogo (altVal i) = true)
    (hsrc : truthy i.src = true)
    (hmax : ∀ c ∈ allCands page, c ≠ (srcVal i, imgScore i + 2) →
      c.2 < imgScore i + 2) :
    (ranked page).head? = some (srcVal i, imgScore i + 2) ∧
    4 ≤ imgScore i + 2 ∧
    ∀ c ∈ linkCands page, c.2 < imgScore i + 2 := by
  have hscore : 2 ≤ imgScore i := imgScore_pos_of_alt i halt
  have hemit : emitImg i = some (srcVal i, imgScore i + 2) := by
    unfold emitImg
    rw [if_pos ⟨by omega, hsrc⟩]
  have hin : (srcVal i, imgScore i + 2) ∈ imgCands page :=
    List.mem_filterMap.mpr ⟨i, hmem, hemit⟩
  have hbase : linkCands page ++ imgCands page ≠ [] := by
    intro h
    have hm : (srcVal i, imgScore i + 2) ∈ linkCands page ++ imgCands page :=
      List.mem_append_right _ hin
    rw [h] at hm
    cases hm
  have hall : (srcVal i, imgScore i + 2) ∈ allCands page := by
    rw [allCands, if_neg hbase]
    exact List.mem_append_right _ hin
  refine ⟨sortCands_head hall hmax, by omega, fun c hc => ?_⟩
  have h1 := linkCands_priority hc
  omega

/-- C1 witness: on `c1wPage` the alt-"logo" image's candidate
`("brand.png", 4)` is ranked first. -/
theorem claim_C1_witness :
    (ranked c1wPage).head? = some ("brand.png", 4) :=
  ((claim_C1 c1wPage c1wImg (by decide) (by decide) (by decide)
    (by decide)).1).trans (by decide)

/-- C1 counterexample: on `c1cexPage` the (unique, hence first)
alt-"logo" image `c1cexImg2` has no candidate scoring higher than it,
yet the top-ranked candidate is the earlier class-"logo" image's
`("a.png", 4)`, not `c1cexImg2`'s `("b.png", 4)`: the claim's "first
image whose alt contains logo" loses an equal-priority tie to an
earlier-discovered element. -/
theorem claim_C1_cex :
    containsLogo (altVal c1cexImg2) = true ∧
    c1cexImg2 ∈ listImgs c1cexPage ∧
    (∀ i ∈ listImgs c1cexPage, containsLogo (altVal i) = true →
      i = c1cexImg2) ∧
    (∀ c ∈ allCands c1cexPage, c.2 ≤ imgScore c1cexImg2 + 2) ∧
    (ranked c1cexPage).head? = some ("a.png", 4) ∧
    ("a.png", (4 : Nat)) ≠ (srcVal c1cexImg2, imgScore c1cexImg2 + 2) := by
  decide

/-- C2 (amended): for every image element the accumulated score is
exactly twice the number of the four attributes `class`, `id`, `alt`,
`src` whose value contains "logo" case-insensitively, and the candidate
`(src, score + 2)` is emitted if and only if the score is positive and
the `src` attribute is present and nonempty. -/
theorem claim_C2 (i : Img) :
    imgScore i = 2 * (attrVals i).countP (fun v => containsLogo v) ∧
    (emitImg i = some (srcVal i, imgScore i + 2) ↔
      0 < imgScore i ∧ i.src ≠ none ∧ i.src ≠ some "") := by
  refine ⟨imgScore_eq i, ?_, ?_⟩
  · intro h
    obtain ⟨-, hpos, htr⟩ := emitImg_eq_some h
    refine ⟨hpos, ?_, ?_⟩
    · intro hn
      rw [hn] at htr
      simp [truthy] at htr
    · intro hn
      rw [hn] at htr
      simp [truthy] at htr
  · rintro ⟨hpos, hn, he⟩
    have htr : truthy i.src = true := by
      unfold truthy
      rcases hsrc : i.src with _ | s
      · exact absurd hsrc hn
      · have hne : s ≠ "" := by
          intro hs
          rw [hs] at hsrc
          exact he hsrc
        simpa using hne
    unfold emitImg
    rw [if_pos ⟨hpos, htr⟩]

/-- C2 counterexample: an image with class "logo" and an empty `src`
attribute has positive score and a present `src` attribute, yet emits
no candidate (Python's truthiness rejects the empty string). -/
theorem claim_C2_cex :
    imgScore c2cexImg = 2 ∧
    c2cexImg.src.isSome = true ∧
    imgCands [Node.img c2cexImg] = [] := by
  decide

/-- C3: ranking is a stable sort by priority descending: the ranked
list is a permutation of the discovered candidates, its priorities are
non-increasing, and within each priority class the discovery order is
preserved. -/
theorem claim_C3 (page : Page) :
    List.Perm (ranked page) (allCands page) ∧
    List.Pairwise (fun a b : Cand => b.2 ≤ a.2) (ranked page) ∧
    ∀ p : Nat, (ranked page).filter (fun x : Cand => x.2 == p)
      = (allCands page).filter (fun x : Cand => x.2 == p) :=
  ⟨sortCands_perm _, sortCands_sorted _, fun p => filter_sortCands _ p⟩

/-- C4 (amended): when steps 1-2 produce zero candidates and the first
image inside the page's first `<header>` element has a present,
nonempty `src`, that image is emitted as the sole candidate with
priority 3, and the resolution loop tries it first: whenever its
reference fetches and decodes, it is the selected candidate. -/
theorem claim_C4 (page : Page) (cs : List Node) (i : Img)
    (hnc : linkCands page ++ imgCands page = [])
    (hh : listHeader page = some cs)
    (hf : listFirstImg cs = some i)
    (hs : truthy i.src = true) :
    ranked page = [(srcVal i, 3)] ∧
    ∀ env u im, env.fetchImage (env.urljoin u (srcVal i)) = some im →
      resolveCands env u (ranked page) = some (env.urljoin u (srcVal i), im) := by
  have hac : allCands page = [(srcVal i, 3)] := by
    rw [allCands, if_pos hnc]
    simp [headerCand, hh, hf, hs]
  have hr : ranked page = [(srcVal i, 3)] := by
    rw [ranked, hac]
    rfl
  refine ⟨hr, fun env u im him => ?_⟩
  rw [hr]
  simp [resolveCands, him]

/-- C4 witness: on `c4wPage` the nested header image is the sole
ranked candidate. -/
theorem claim_C4_witness :
    ranked c4wPage = [("hero.png", 3)] :=
  (claim_C4 c4wPage [Node.other [Node.img c4wImg]] c4wImg rfl rfl rfl
    rfl).1.trans (by decide)

/-- C4 counterexample: `c4cexPage` has zero step-1/2 candidates and a
`<header>` containing an `<img>`, yet the candidate list stays empty —
the header's first image lacks a `src`, so nothing is emitted and
nothing can be selected, contradicting the claim as stated. -/
theorem claim_C4_cex :
    linkCands c4cexPage ++ imgCands c4cexPage = [] ∧
    listHeader c4cexPage = some [Node.img c4cexImg] ∧
    listFirstImg [Node.img c4cexImg] = some c4cexImg ∧
    ranked c4cexPage = [] :=
  ⟨rfl, rfl, rfl, rfl⟩

/-- C5 (amended): when the page fetch raises (network error or
timeout), the extractor reports the failure for that URL via the
operator-visible message, yields no record and writes no file, and the
batch loop still processes every other URL independently.  (An HTTP
error status does not raise: see the counterexample.) -/
theorem claim_C5 (env : Env) (url e : String) (pre post : List String)
    (h : env.fetchPage (normalizeUrl url) = .error e) :
    getSiteLogo env url = ⟨none, [], [errMsg (normalizeUrl url) e]⟩ ∧
    runBatch env (pre ++ url :: post)
      = runBatch env pre ++ getSiteLogo env url :: runBatch env post := by
  constructor
  · simp [getSiteLogo, h]
  · simp [runBatch]

/-- C5 witness: a timing-out page fetch yields the logged message, an
absent record, and an untouched surrounding batch. -/
theorem claim_C5_witness :
    getSiteLogo c5wEnv "example.com"
      = ⟨none, [], ["Error processing https://example.com: timeout"]⟩ ∧
    runBatch c5wEnv (["a.com"] ++ "example.com" :: ["b.com"])
      = runBatch c5wEnv ["a.com"]
        ++ getSiteLogo c5wEnv "example.com" :: runBatch c5wEnv ["b.com"] :=
  ⟨(claim_C5 c5wEnv "example.com" "timeout" ["a.com"] ["b.com"] rfl).1.trans
    (by decide),
   (claim_C5 c5wEnv "example.com" "timeout" ["a.com"] ["b.com"] rfl).2⟩

/-- C5 counterexample: an HTTP error status on the page fetch is not a
failure for the code — `requests.get` does not raise on 4xx/5xx and the
source never calls `raise_for_status` on the page response — so a 404
response's body is parsed normally, no error is reported, and here a
record is even produced, contradicting the claim's "HTTP error status"
case. -/
theorem claim_C5_cex :
    c5cexEnv.fetchPage (normalizeUrl "example.com") = .ok ⟨404, c5cexPage⟩ ∧
    (getSiteLogo c5cexEnv "example.com").errors = [] ∧
    (getSiteLogo c5cexEnv "example.com").record.isSome = true :=
  ⟨rfl, rfl, rfl⟩

/-- C6: if the page fetch succeeds but every ranked candidate fails to
fetch or decode — in particular when there are no candidates at all —
the extraction result is absent and no file is written. -/
theorem claim_C6 (env : Env) (url : String) (resp : Response)
    (hok : env.fetchPage (normalizeUrl url) = .ok resp)
    (hfail : ∀ c ∈ ranked resp.page,
      env.fetchImage (env.urljoin (normalizeUrl url) c.1) = none) :
    (getSiteLogo env url).record = none ∧
    (getSiteLogo env url).written = [] := by
  have hres := resolveCands_none hfail
  constructor
  · simp [getSiteLogo, hok, hres]
  · simp [getSiteLogo, hok, hres]

/-- C6 witness: an empty page yields no candidates, an absent result
and no written file. -/
theorem claim_C6_witness :
    (getSiteLogo c6wEnv "example.com").record = none ∧
    (getSiteLogo c6wEnv "example.com").written = [] :=
  claim_C6 c6wEnv "example.com" ⟨200, []⟩ rfl (by decide)

/-- C7 (amended): an input URL that does not start with `http://` or
`https://` is fetched with `https://` prefixed; an input starting with
`http://` or `https://` is fetched unchanged.  (A URL with any other
scheme is *not* fetched unchanged: see the counterexample.) -/
theorem claim_C7 (url : String) :
    (leadsWith "http://".data url.data = false ∧
     leadsWith "https://".data url.data = false →
      normalizeUrl url = "https://" ++ url) ∧
    (leadsWith "http://".data url.data = true ∨
     leadsWith "https://".data url.data = true →
      normalizeUrl url = url) := by
  constructor
  · rintro ⟨h1, h2⟩
    simp [normalizeUrl, h1, h2]
  · rintro (h | h)
    · simp [normalizeUrl, h]
    · simp [normalizeUrl, h]

/-- C7 witness: a scheme-less URL gets the `https://` prefix; an
`http://` URL is fetched unchanged. -/
theorem claim_C7_witness :
    normalizeUrl "example.com" = "https://example.com" ∧
    normalizeUrl "http://example.com" = "http://example.com" :=
  ⟨((claim_C7 "example.com").1 (by decide)).trans (by decide),
   (claim_C7 "http://example.com").2 (Or.inl (by decide))⟩

/-- C7 counterexample: `ftp://example.com` already has a scheme, yet
the fetched URL is not the input unchanged — the code only recognises
`http://` and `https://`, so it prefixes `https://` onto the `ftp://`
URL. -/
theorem claim_C7_cex :
    normalizeUrl "ftp://example.com" = "https://ftp://example.com" ∧
    normalizeUrl "ftp://example.com" ≠ "ftp://example.com" := by
  decide

/-- C8: the save format preserves JPEG and PNG and coerces everything
else to PNG; and an RGBA image saved as JPEG is composited onto an
opaque white background through its alpha mask: the result has no alpha
channel (mode RGB, every pixel opaque), fully covered pixels keep their
colour, and fully transparent pixels come out white. -/
theorem claim_C8 (im : PILImage) :
    ((im.format = some "JPEG" → saveFormat im = "JPEG") ∧
     (im.format = some "PNG" → saveFormat im = "PNG") ∧
     (im.format ≠ some "JPEG" → im.format ≠ some "PNG" →
       saveFormat im = "PNG")) ∧
    (im.mode = "RGBA" → saveFormat im = "JPEG" →
      (normalizeImage im).mode = "RGB" ∧
      (normalizeImage im).px.length = im.px.length ∧
      ∀ (n : Nat) (p : RGBA), im.px[n]? = some p →
        ∃ q : RGBA, (normalizeImage im).px[n]? = some q ∧ q.a = 255 ∧
          (p.a = 255 → q.r = p.r ∧ q.g = p.g ∧ q.b = p.b) ∧
          (p.a = 0 → q.r = 255 ∧ q.g = 255 ∧ q.b = 255)) := by
  constructor
  · refine ⟨fun h => by simp [saveFormat, h],
            fun h => by simp [saveFormat, h],
            fun h1 h2 => ?_⟩
    rcases hf : im.format with _ | f
    · simp [saveFormat, hf]
    · have hf1 : f ≠ "JPEG" := by
        rintro rfl
        exact h1 hf
      have hf2 : f ≠ "PNG" := by
        rintro rfl
        exact h2 hf
      simp [saveFormat, hf, hf1, hf2]
  · intro hm hsf
    have hni : normalizeImage im = ⟨im.format, "RGB", im.px.map pasteWhitePx⟩ := by
      simp [normalizeImage, hm, hsf]
    refine ⟨by rw [hni], by rw [hni]; simp, fun n p hp => ?_⟩
    refine ⟨pasteWhitePx p, ?_, rfl, ?_, ?_⟩
    · rw [hni]
      simp [hp]
    · intro ha
      simp only [pasteWhitePx, blendWhite, ha]
      refine ⟨?_, ?_, ?_⟩ <;> omega
    · intro ha
      simp only [pasteWhitePx, blendWhite, ha]
      refine ⟨?_, ?_, ?_⟩ <;> omega

/-- C8 witness: the two-pixel transparent JPEG `c8wImg` flattens to an
opaque RGB image whose pixels satisfy the endpoint guarantees. -/
theorem claim_C8_witness :
    saveFormat c8wImg = "JPEG" ∧
    ((normalizeImage c8wImg).mode = "RGB" ∧
     (normalizeImage c8wImg).px.length = c8wImg.px.length ∧
     ∀ (n : Nat) (p : RGBA), c8wImg.px[n]? = some p →
       ∃ q : RGBA, (normalizeImage c8wImg).px[n]? = some q ∧ q.a = 255 ∧
         (p.a = 255 → q.r = p.r ∧ q.g = p.g ∧ q.b = p.b) ∧
         (p.a = 0 → q.r = 255 ∧ q.g = 255 ∧ q.b = 255)) :=
  ⟨(claim_C8 c8wImg).1.1 rfl, (claim_C8 c8wImg).2 rfl rfl⟩

/-- C9 (amended): the generated filename determines the random suffix
injectively — for a fixed domain and extension, two extractions collide
exactly when the two drawn 8-hex suffixes are equal; distinct suffixes
give distinct filenames, but nothing prevents the random draw from
repeating (see the counterexample), so uniqueness is probabilistic, not
guaranteed. -/
theorem claim_C9 (domain s1 s2 ext : String) (h : s1 ≠ s2) :
    mkFilename domain s1 ext ≠ mkFilename domain s2 ext := by
  intro he
  apply h
  have hd := congrArg String.data he
  simp only [mkFilename, String.data_append, List.append_assoc] at hd
  have h1 := List.append_cancel_left hd
  have h2 := List.append_cancel_left h1
  exact String.ext (List.append_cancel_right h2)

/-- C9 witness: two different suffixes on the same domain give two
different filenames. -/
theorem claim_C9_witness :
    mkFilename "example.com" "aaaaaaaa" "png"
      ≠ mkFilename "example.com" "bbbbbbbb" "png" :=
  claim_C9 "example.com" "aaaaaaaa" "bbbbbbbb" "png" (by decide)

/-- C9 counterexample: two successful extractions on the same domain
that happen to draw the same `uuid4().hex[:8]` suffix — nothing in the
code prevents this, and no lookup table detects it — produce the very
same filename, so "never a collision" does not hold. -/
theorem claim_C9_cex :
    (getSiteLogo c9envA "example.com").record.map (fun r => r.filename)
      = some "example_com_deadbeef.png" ∧
    (getSiteLogo c9envB "example.com").record.map (fun r => r.filename)
      = some "example_com_deadbeef.png" ∧
    (getSiteLogo c9envA "example.com").written
      ≠ (getSiteLogo c9envB "example.com").written := by
  decide

/-- C10: invariants of the candidate list: every link-derived candidate
has priority exactly 1; every image-derived candidate has an even
priority of at least 4; and a priority-3 candidate (the header
fallback) only ever occurs as the sole element of the list. -/
theorem claim_C10 (page : Page) :
    (∀ c ∈ linkCands page, c.2 = 1) ∧
    (∀ c ∈ imgCands page, 4 ≤ c.2 ∧ c.2 % 2 = 0) ∧
    (∀ c ∈ allCands page, c.2 = 3 → allCands page = [c]) := by
  refine ⟨fun c hc => linkCands_priority hc,
          fun c hc => imgCands_priority hc,
          fun c hc h3 => ?_⟩
  by_cases hb : linkCands page ++ imgCands page = []
  · rw [allCands, if_pos hb] at hc ⊢
    rcases headerCand_shape page with he | ⟨s, he⟩
    · rw [he] at hc
      cases hc
    · rw [he] at hc ⊢
      rw [List.mem_singleton.mp hc]
  · rw [allCands, if_neg hb] at hc
    rcases List.mem_append.mp hc with hcl | hci
    · have := linkCands_priority hcl
      omega
    · have := (imgCands_priority hci).1
      omega

/-- C10 witness: the invariants instantiated on concrete pages: the
icon link candidate of `c1wPage` has priority 1, its image candidate
has even priority at least 4, and the priority-3 fallback of `c4wPage`
is the sole candidate. -/
theorem claim_C10_witness :
    ((("favicon.ico", 1) : Cand).2 = 1) ∧
    (4 ≤ (("brand.png", 4) : Cand).2 ∧ (("brand.png", 4) : Cand).2 % 2 = 0) ∧
    allCands c4wPage = [("hero.png", 3)] :=
  ⟨(claim_C10 c1wPage).1 ("favicon.ico", 1) (by decide),
   (claim_C10 c1wPage).2.1 ("brand.png", 4) (by decide),
   (claim_C10 c4wPage).2.2 ("hero.png", 3) (by decide) rfl⟩

end GetLogo
